import Mathlib

/-
  Verification of the zo-keeper service (Rust) against its natural-language
  specification.

  Shallow embedding conventions:
  * The I80F48 fixed-point type is modelled by exact rationals.  All interior
    arithmetic of the risk math uses checked operations that panic on overflow
    in the source; we assume in-range values, so rational arithmetic is exact.
  * Fixed-size on-chain arrays are modelled as total functions from array
    indices, read only inside the bounds the source reads.
  * Oracle lookup by symbol (a binary search over the cache in the source) is
    modelled as a map from symbols to prices; symbols are opaque naturals.
  * Constants MAX_COLLATERALS, MAX_MARKETS, SPOT_INITIAL_MARGIN_REQ and
    SPOT_MAINT_MARGIN_REQ come from the zo-abi dependency crate (the on-chain
    program interface, outside this repository).  No claim below depends on
    their numeric values.
-/

/-- Number of collateral slots in a Margin account (zo-abi dependency). -/
def MAX_COLLATERALS : Nat := 25

/-- Number of perp-market slots in State and Control (zo-abi dependency). -/
def MAX_MARKETS : Nat := 50

/-- Combined length of the concatenated position vectors. -/
def TOTAL_SLOTS : Nat := MAX_COLLATERALS + MAX_MARKETS

/-- Spot initial margin requirement, in millionths (zo-abi dependency). -/
def SPOT_INITIAL_MARGIN_REQ : Nat := 1100000

/-- Spot maintenance margin requirement, in millionths (zo-abi dependency). -/
def SPOT_MAINT_MARGIN_REQ : Nat := 1030000

/-- Oracle symbols are opaque identifiers. -/
abbrev OracleSymbol := Nat

/-- Perp market kind; the source only distinguishes Future and Square and
    logs a message for anything else, leaving the price entry at zero. -/
inductive PerpType where
  | Future
  | Square
  | Other
deriving DecidableEq, Repr

/-- Mirror of the MfReturnOption enum of margin_utils.rs. -/
inductive MfReturnOption where
  | Mf
  | Imf
  | Mmf
  | Omf
  | Cmf
deriving DecidableEq, Repr

/-- Mirror of zo-abi FractionType as matched in margin_utils.rs. -/
inductive FractionType where
  | Initial
  | Maintenance
  | Cancel
deriving DecidableEq, Repr

/-- Per-market open-orders summary stored on a Control account
    (zo-abi OpenOrdersInfo, the fields read by the liquidator math). -/
structure OpenOrdersInfo where
  pos_size : Int
  coin_on_bids : Nat
  coin_on_asks : Nat
  native_pc_total : Int
  realized_pnl : Int
  funding_index : Int
deriving DecidableEq, Repr

/-- Per-user Control account: open-orders summaries per market slot. -/
structure Control where
  open_orders_agg : Nat → OpenOrdersInfo

/-- Per-user Margin account: collateral balances per collateral slot. -/
structure Margin where
  collateral : Nat → Rat

/-- Per-collateral static info kept on State (fields the math reads). -/
structure CollateralInfo where
  oracle_symbol : OracleSymbol
  weight : Nat
  liq_fee : Nat

/-- Per-perp-market static info kept on State (fields the math reads). -/
structure PerpMarketInfo where
  oracle_symbol : OracleSymbol
  perp_type : PerpType
  asset_decimals : Nat
  base_imf : Nat

/-- Program State account (fields the risk math reads). -/
structure State where
  total_collaterals : Nat
  total_markets : Nat
  collaterals : Nat → CollateralInfo
  perp_markets : Nat → PerpMarketInfo

/-- Borrow cache entry: supply and borrow multipliers. -/
structure BorrowCache where
  supply_multiplier : Rat
  borrow_multiplier : Rat

/-- Program Cache account: oracle prices keyed by symbol, mark prices,
    borrow caches and funding-index snapshots per market. -/
structure Cache where
  oracle_price : OracleSymbol → Rat
  marks : Nat → Rat
  borrow_cache : Nat → BorrowCache
  funding_cache : Nat → Int

/-- Sum of a position-length vector, as the loops of get_mf sum them. -/
def sumVec (v : Nat → Rat) : Rat :=
  ((List.range TOTAL_SLOTS).map v).sum

/-- Embedding of get_position_vector (margin_utils.rs): spot collateral in
    the first MAX_COLLATERALS slots, perp position sizes after. -/
def get_position_vector (margin : Margin) (control : Control) : Nat → Rat :=
  fun i =>
    if i < MAX_COLLATERALS then margin.collateral i
    else if i < TOTAL_SLOTS then
      ((control.open_orders_agg (i - MAX_COLLATERALS)).pos_size : Rat)
    else 0

/-- Embedding of get_position_open_vector (margin_utils.rs): perp entries
    replaced by max of the absolute values of pos+bids and pos-asks. -/
def get_position_open_vector (margin : Margin) (control : Control) :
    Nat → Rat :=
  fun i =>
    if i < MAX_COLLATERALS then margin.collateral i
    else if i < TOTAL_SLOTS then
      let info := control.open_orders_agg (i - MAX_COLLATERALS)
      max (((info.pos_size + (info.coin_on_bids : Int)).natAbs : Rat))
        (((info.pos_size - (info.coin_on_asks : Int)).natAbs : Rat))
    else 0

/-- Embedding of get_price_vector (margin_utils.rs).  Spot prices are the
    oracle price scaled by the borrow or supply multiplier by sign of the
    position; perp prices are the oracle price (Future) or the mark price
    (Square), and stay zero for unimplemented kinds and unused slots. -/
def get_price_vector (state : State) (cache : Cache) (position : Nat → Rat) :
    Nat → Rat :=
  fun i =>
    if i < state.total_collaterals ∧ i < MAX_COLLATERALS then
      let adjustment :=
        if position i < 0 then (cache.borrow_cache i).borrow_multiplier
        else (cache.borrow_cache i).supply_multiplier
      cache.oracle_price (state.collaterals i).oracle_symbol * adjustment
    else if MAX_COLLATERALS ≤ i ∧ i - MAX_COLLATERALS < state.total_markets ∧
        i < TOTAL_SLOTS then
      match (state.perp_markets (i - MAX_COLLATERALS)).perp_type with
      | PerpType.Future =>
          cache.oracle_price
            (state.perp_markets (i - MAX_COLLATERALS)).oracle_symbol
      | PerpType.Square => cache.marks (i - MAX_COLLATERALS)
      | PerpType.Other => 0
    else 0

/-- Embedding of get_pnl_vectors (margin_utils.rs).  Returns the pair of
    realized and unrealized pnl vectors.  A market whose pos_size is zero is
    skipped by the source loop, leaving both entries at zero.  The funding
    difference is the user's stored funding index minus the cached market
    funding index, as in the source. -/
def get_pnl_vectors (control : Control) (state : State) (cache : Cache)
    (funding_cache : Nat → Rat) : (Nat → Rat) × (Nat → Rat) :=
  let realized : Nat → Rat := fun idx =>
    if MAX_COLLATERALS ≤ idx ∧ idx < TOTAL_SLOTS then
      let i := idx - MAX_COLLATERALS
      let info := control.open_orders_agg i
      if info.pos_size = 0 then 0
      else
        let funding_diff := (info.funding_index : Rat) - funding_cache i
        let unrealized_funding :=
          funding_diff * (info.pos_size : Rat) /
            ((10 : Rat) ^ (state.perp_markets i).asset_decimals)
        unrealized_funding + (info.realized_pnl : Rat)
    else 0
  let unrealized : Nat → Rat := fun idx =>
    if MAX_COLLATERALS ≤ idx ∧ idx < TOTAL_SLOTS then
      let i := idx - MAX_COLLATERALS
      let info := control.open_orders_agg i
      if info.pos_size = 0 then 0
      else
        let price :=
          match (state.perp_markets i).perp_type with
          | PerpType.Future =>
              cache.oracle_price (state.perp_markets i).oracle_symbol
          | PerpType.Square => cache.marks i
          | PerpType.Other => 0
        (info.pos_size : Rat) * price + (info.native_pc_total : Rat)
    else 0
  (realized, unrealized)

/-- Embedding of get_base_weight_vector (margin_utils.rs): collateral weight
    over 1000 for spot slots, base_imf over 1000 for perp slots. -/
def get_base_weight_vector (state : State) : Nat → Rat :=
  fun i =>
    if i < state.total_collaterals ∧ i < MAX_COLLATERALS then
      ((state.collaterals i).weight : Rat) / 1000
    else if MAX_COLLATERALS ≤ i ∧ i - MAX_COLLATERALS < state.total_markets ∧
        i < TOTAL_SLOTS then
      ((state.perp_markets (i - MAX_COLLATERALS)).base_imf : Rat) / 1000
    else 0

/-- Embedding of weight_conversion (margin_utils.rs).  The perp factors of
    the Cmf and Mmf modes come from I80F48 from_str_binary, which parses its
    argument as BINARY digits: the string 0.101 denotes 1/2 + 1/8 = 5/8, and
    the string 0.1 denotes 1/2. -/
def weight_conversion (return_type : MfReturnOption) (position : Rat)
    (base_weight : Rat) (is_spot : Bool) : Rat :=
  match return_type with
  | MfReturnOption.Mf | MfReturnOption.Omf =>
      if is_spot = true ∧ ¬ position < 0 then base_weight
      else if is_spot = true then 1
      else 0
  | MfReturnOption.Imf =>
      if is_spot = true ∧ ¬ position < 0 then 0
      else if is_spot = true then
        -(((SPOT_INITIAL_MARGIN_REQ : Rat) / 1000000) / base_weight - 1)
      else
        (if position < 0 then (-1 : Rat) else 1) * base_weight
  | MfReturnOption.Cmf =>
      if is_spot = true ∧ ¬ position < 0 then 0
      else if is_spot = true then
        -(((SPOT_INITIAL_MARGIN_REQ : Rat) / 1000000) / base_weight - 1)
      else
        (if position < 0 then (-1 : Rat) else 1) * ((5 / 8 : Rat) * base_weight)
  | MfReturnOption.Mmf =>
      if is_spot = true ∧ ¬ position < 0 then 0
      else if is_spot = true then
        -(((SPOT_MAINT_MARGIN_REQ : Rat) / 1000000) / base_weight - 1)
      else
        (if position < 0 then (-1 : Rat) else 1) * ((1 / 2 : Rat) * base_weight)

/-- Embedding of get_mf (margin_utils.rs): weighted sum of position times
    price, the realized-pnl total weighted at index zero, plus the
    unrealized-pnl total (full for Mf, clamped nonpositive for Omf). -/
def get_mf (mf : MfReturnOption) (position prices realized unrealized
    base_weight : Nat → Rat) : Rat :=
  let total_realized_pnl := sumVec realized
  let total_unrealized_pnl := sumVec unrealized
  let core :=
    ((List.range TOTAL_SLOTS).map (fun i =>
      let weight :=
        weight_conversion mf (position i) (base_weight i)
          (decide (i < MAX_COLLATERALS))
      (if i = 0 then total_realized_pnl * weight else 0) +
        position i * (prices i * weight))).sum
  core +
    (match mf with
     | MfReturnOption.Mf => total_unrealized_pnl
     | MfReturnOption.Omf => min total_unrealized_pnl 0
     | _ => 0)

/-- Embedding of check_mf (margin_utils.rs): picks the open position vector
    for Initial and Cancel, the plain one otherwise, and compares the mode
    pair for the requested fraction against the tolerance-scaled bound. -/
def check_mf (check : FractionType) (margin : Margin) (control : Control)
    (state : State) (cache : Cache) (tolerance : Rat) : Bool :=
  let position_vector :=
    match check with
    | FractionType.Initial | FractionType.Cancel =>
        get_position_open_vector margin control
    | _ => get_position_vector margin control
  let price_vector := get_price_vector state cache position_vector
  let weight_vector := get_base_weight_vector state
  let funding_cache : Nat → Rat := fun i => ((cache.funding_cache i : Int) : Rat)
  let pnls := get_pnl_vectors control state cache funding_cache
  match check with
  | FractionType.Initial =>
      decide (get_mf MfReturnOption.Omf position_vector price_vector pnls.1
          pnls.2 weight_vector ≥
        get_mf MfReturnOption.Imf position_vector price_vector pnls.1 pnls.2
            weight_vector * tolerance)
  | FractionType.Cancel =>
      decide (get_mf MfReturnOption.Omf position_vector price_vector pnls.1
          pnls.2 weight_vector ≥
        get_mf MfReturnOption.Cmf position_vector price_vector pnls.1 pnls.2
            weight_vector * tolerance)
  | FractionType.Maintenance =>
      decide (get_mf MfReturnOption.Mf position_vector price_vector pnls.1
          pnls.2 weight_vector ≥
        get_mf MfReturnOption.Mmf position_vector price_vector pnls.1 pnls.2
            weight_vector * tolerance)

/-- The maintenance-path margin fraction value computed inside check_mf:
    Mf mode over the closed position vector. -/
def maintenance_mf (margin : Margin) (control : Control) (state : State)
    (cache : Cache) : Rat :=
  let position_vector := get_position_vector margin control
  let price_vector := get_price_vector state cache position_vector
  let weight_vector := get_base_weight_vector state
  let funding_cache : Nat → Rat := fun i => ((cache.funding_cache i : Int) : Rat)
  let pnls := get_pnl_vectors control state cache funding_cache
  get_mf MfReturnOption.Mf position_vector price_vector pnls.1 pnls.2
    weight_vector

/-- The maintenance-path requirement value computed inside check_mf:
    Mmf mode over the closed position vector. -/
def maintenance_mmf (margin : Margin) (control : Control) (state : State)
    (cache : Cache) : Rat :=
  let position_vector := get_position_vector margin control
  let price_vector := get_price_vector state cache position_vector
  let weight_vector := get_base_weight_vector state
  let funding_cache : Nat → Rat := fun i => ((cache.funding_cache i : Int) : Rat)
  let pnls := get_pnl_vectors control state cache funding_cache
  get_mf MfReturnOption.Mmf position_vector price_vector pnls.1 pnls.2
    weight_vector

/-- The sort key of largest_open_order (margin_utils.rs): per market slot
    the larger of coins on asks and coins on bids, times the mark price. -/
def order_notional (cache : Cache) (control : Control) (i : Nat) : Rat :=
  ((max (control.open_orders_agg i).coin_on_asks
      (control.open_orders_agg i).coin_on_bids : Nat) : Rat) * cache.marks i

/-- One step of the max_by_key scan of largest_open_order; Rust max_by_key
    keeps the LAST maximal element, so ties move to the new index. -/
def order_step (cache : Cache) (control : Control) (acc : Option Nat)
    (i : Nat) : Option Nat :=
  match acc with
  | none => some i
  | some j =>
      if order_notional cache control j ≤ order_notional cache control i then
        some i
      else some j

/-- Embedding of largest_open_order (margin_utils.rs): index of the slot
    with the largest order notional; None exactly when that maximal value
    is zero. -/
def largest_open_order (cache : Cache) (control : Control) : Option Nat :=
  match (List.range MAX_MARKETS).foldl (order_step cache control) none with
  | none => none
  | some j => if order_notional cache control j = 0 then none else some j

/-- Embedding of has_open_orders (margin_utils.rs). -/
def has_open_orders (cache : Cache) (control : Control) : Bool :=
  (largest_open_order cache control).isSome

/-- Embedding of the classification tail of is_liquidatable (accounts.rs).
    The two arguments are the results of the external zo-abi
    check_fraction_requirement calls for the Cancel and Maintenance
    fractions (none models the Err branch), exactly as the source matches
    them.  The returned pair is (cancel_orders, liquidate): cancelling is
    keyed on the Cancel fraction alone, liquidating on the Maintenance
    fraction AND the absence of open orders. -/
def is_liquidatable (cancel_result : Option Bool)
    (maintenance_result : Option Bool) (cache : Cache) (control : Control) :
    Option (Bool × Bool) :=
  let has_oo := has_open_orders cache control
  match cancel_result, maintenance_result with
  | some is_not_cancel, some is_not_liq =>
      some (!is_not_cancel, !is_not_liq && !has_oo)
  | some is_not_cancel, none => some (!is_not_cancel, false)
  | none, some is_not_liq => some (false, !is_not_liq && !has_oo)
  | none, none => none

/-- Modelled from the spec (section 4.3.3): the classification the claim
    describes, with (cancel, liquidate) flags: liquidatable iff Maintenance
    is not satisfied, cancellable iff Cancel is not satisfied and the
    account has at least one resting open order. -/
def spec_classification (cancel_ok maintenance_ok has_oo : Bool) :
    Bool × Bool :=
  (!cancel_ok && has_oo, !maintenance_ok)

/-- Modelled from the spec (section 4.3.3 pnl decomposition): funding
    accrual as the spec words it, with the user index subtracted from the
    market index. -/
def spec_funding_accrual (pos_size user_index market_index : Int)
    (asset_decimals : Nat) : Rat :=
  (pos_size : Rat) * ((market_index : Rat) - (user_index : Rat)) /
    ((10 : Rat) ^ asset_decimals)

/-- Mirror of the liquidator ErrorCode enum (liquidator/error.rs). -/
inductive ErrorCode where
  | MathFailure
  | InexistentControl
  | LockFailure
  | CollateralFailure
  | NoCollateral
  | NoPositions
  | LiquidationFailure
  | SwapError
  | TimeoutExceeded
  | CancelFailure
  | SettlementFailure
  | NoAsks
  | UnrecoverableTransactionError
  | LiquidationOverExposure
deriving DecidableEq, Repr

/-- Outcome of one send attempt inside retry_send (utils.rs), classifying
    the anchor client error shape the source matches on.  rpcCustom carries
    the custom program error code extracted by get_preflight_error_code;
    rpcNoCode is an RPC error from which no custom code could be extracted;
    otherKind is any other solana ClientErrorKind; nonSolanaClient is an
    anchor error that is not a SolanaClientError. -/
inductive SendOutcome where
  | ok (sig : Nat)
  | rpcCustom (code : Nat)
  | rpcNoCode
  | reqwestErr
  | transactionErr
  | otherKind
  | nonSolanaClient
deriving DecidableEq, Repr

/-- What one iteration of the retry_send loop does with an outcome:
    either return a final result or fall through to the next attempt. -/
inductive AttemptStep where
  | ret (r : Except ErrorCode Nat)
  | next
deriving Repr

/-- Embedding of the error dispatch inside the retry_send loop body
    (utils.rs): codes 6006, 6016, 6046 leave with LiquidationOverExposure;
    6007, 6012, 6011, then 6017, then 6052 leave with
    UnrecoverableTransactionError; any other custom code falls through to
    the next attempt; an RPC error without a custom code and any
    unlisted client-error kind leave with UnrecoverableTransactionError;
    reqwest and transaction errors and non-solana-client errors fall
    through. -/
def attempt_step : SendOutcome → AttemptStep
  | SendOutcome.ok sig => AttemptStep.ret (Except.ok sig)
  | SendOutcome.rpcCustom code =>
      if code = 6006 ∨ code = 6016 ∨ code = 6046 then
        AttemptStep.ret (Except.error ErrorCode.LiquidationOverExposure)
      else if code = 6007 ∨ code = 6012 ∨ code = 6011 then
        AttemptStep.ret (Except.error ErrorCode.UnrecoverableTransactionError)
      else if code = 6017 then
        AttemptStep.ret (Except.error ErrorCode.UnrecoverableTransactionError)
      else if code = 6052 then
        AttemptStep.ret (Except.error ErrorCode.UnrecoverableTransactionError)
      else AttemptStep.next
  | SendOutcome.rpcNoCode =>
      AttemptStep.ret (Except.error ErrorCode.UnrecoverableTransactionError)
  | SendOutcome.reqwestErr => AttemptStep.next
  | SendOutcome.transactionErr => AttemptStep.next
  | SendOutcome.otherKind =>
      AttemptStep.ret (Except.error ErrorCode.UnrecoverableTransactionError)
  | SendOutcome.nonSolanaClient => AttemptStep.next

/-- True when the outcome lets the retry loop continue to the next attempt. -/
def is_transient (o : SendOutcome) : Bool :=
  match attempt_step o with
  | AttemptStep.next => true
  | AttemptStep.ret _ => false

/-- Embedding of retry_send (utils.rs): up to the given number of attempts,
    each attempt rebuilds the request (outcome i for attempt i); the loop
    body either leaves early per attempt_step or continues; exhausting the
    bound yields TimeoutExceeded. -/
def retry_send : (Nat → SendOutcome) → Nat → Except ErrorCode Nat
  | _, 0 => Except.error ErrorCode.TimeoutExceeded
  | outcomes, n + 1 =>
      match attempt_step (outcomes 0) with
      | AttemptStep.ret r => r
      | AttemptStep.next => retry_send (fun j => outcomes (j + 1)) n

/-- Shard predicate is_right_remainder (liquidator/utils.rs).  The source
    accumulates the per-byte remainders in a u8, so each addition wraps
    modulo 256 (release-profile semantics of the += on a u8). -/
def control_key_sum (bytes : List Nat) (modulus : Nat) : Nat :=
  bytes.foldl (fun sum b => (sum + b % modulus) % 256) 0

/-- Embedding of is_right_remainder (liquidator/utils.rs). -/
def is_right_remainder (bytes : List Nat) (modulus remainder : Nat) : Bool :=
  control_key_sum bytes modulus % modulus == remainder

/-- A control pubkey viewed as its [u64; 4] representation, as the consumer
    casts it with bytemuck before inserting into the BTreeSet. -/
abbrev U64x4 := Nat × Nat × Nat × Nat

/-- Strict lexicographic order on the [u64; 4] representation, limb 0
    compared first — the derived Ord of a Rust array. -/
def keyLtB : U64x4 → U64x4 → Bool
  | (a0, a1, a2, a3), (b0, b1, b2, b3) =>
    if a0 < b0 then true
    else if b0 < a0 then false
    else if a1 < b1 then true
    else if b1 < a1 then false
    else if a2 < b2 then true
    else if b2 < a2 then false
    else decide (a3 < b3)

/-- Ordered duplicate-free insertion, modelling BTreeSet insert on the
    sorted element sequence. -/
def insertKey (e : U64x4) : List U64x4 → List U64x4
  | [] => [e]
  | x :: xs =>
      if keyLtB e x then e :: x :: xs
      else if keyLtB x e then x :: insertKey e xs
      else x :: xs

/-- The event scan of consume (consumer.rs): insert each event's control
    into the set and stop as soon as the set has reached to_consume
    elements.  The accumulator is the sorted element sequence of the
    BTreeSet built so far. -/
def build_used (to_consume : Nat) : List U64x4 → List U64x4 → List U64x4
  | [], s => s
  | e :: es, s =>
      let s1 := insertKey e s
      if to_consume ≤ s1.length then s1 else build_used to_consume es s1

/-- The control list a consumer tick attaches to consume_events: the sorted
    contents of the capped BTreeSet (consumer.rs). -/
def used_control (to_consume : Nat) (events : List U64x4) : List U64x4 :=
  build_used to_consume events []

/-- The limit argument passed to the consume_events instruction:
    cfg.to_consume cast to u16 (consumer.rs). -/
def consume_limit (to_consume : Nat) : Nat :=
  to_consume % 65536

/-- Sorted deduplication of a list of keys by repeated ordered insertion. -/
def sort_dedup (l : List U64x4) : List U64x4 :=
  l.foldl (fun s e => insertKey e s) []

/-- Modelled from the spec (section 4.4 step 5 and scenario S2): the control
    list the claim describes — all distinct controls sorted by their
    [u64; 4] representation, then capped to the first to_consume. -/
def spec_used_control (to_consume : Nat) (events : List U64x4) :
    List U64x4 :=
  (sort_dedup events).take to_consume

/-- The first to_consume distinct controls in event order (the amended
    description of the consumer cap). -/
def first_distinct (n : Nat) : List U64x4 → List U64x4 → List U64x4
  | [], seen => seen
  | e :: es, seen =>
      if e ∈ seen then first_distinct n es seen
      else if n ≤ seen.length + 1 then seen ++ [e]
      else first_distinct n es (seen ++ [e])

/-- Number of confirmation polls of the crank dispatch helper (crank.rs). -/
def GET_STATUS_RETRIES : Nat := 25

/-- Milliseconds slept between confirmation polls (crank.rs). -/
def GET_STATUS_WAIT : Nat := 2000

/-- One observation of the confirmation poll loop in dispatch (crank.rs):
    the signature status returned by the RPC, and, when the status is still
    pending, the result of the processed-commitment blockhash validity
    check. -/
inductive PollObs where
  | confirmed
  | failed (e : Nat)
  | statusErr
  | pendingValid
  | pendingInvalid
  | pendingCheckErr
deriving DecidableEq, Repr

/-- Result of the dispatch confirmation poll (crank.rs): the signature on
    the first confirmed status, a structured error on an execution error, a
    propagated RPC error, or ConfirmationTimeout carrying the signature
    (also reached by breaking out when the blockhash went invalid). -/
inductive DispatchResult where
  | ok (sig : Nat)
  | execError (e : Nat)
  | rpcError
  | confirmationTimeout (sig : Nat)
deriving DecidableEq, Repr

/-- Embedding of the confirmation poll loop of dispatch (crank.rs),
    recursing over the remaining retry budget and the observation stream. -/
def dispatch_poll_go (sig : Nat) : Nat → List PollObs → DispatchResult
  | 0, _ => DispatchResult.confirmationTimeout sig
  | _ + 1, [] => DispatchResult.confirmationTimeout sig
  | n + 1, o :: rest =>
      match o with
      | PollObs.confirmed => DispatchResult.ok sig
      | PollObs.failed e => DispatchResult.execError e
      | PollObs.statusErr => DispatchResult.rpcError
      | PollObs.pendingValid => dispatch_poll_go sig n rest
      | PollObs.pendingInvalid => DispatchResult.confirmationTimeout sig
      | PollObs.pendingCheckErr => DispatchResult.rpcError

/-- The dispatch confirmation poll with the source's retry budget. -/
def dispatch_poll (sig : Nat) (obs : List PollObs) : DispatchResult :=
  dispatch_poll_go sig GET_STATUS_RETRIES obs

/-- A dex market as read by poll_update_funding (recorder.rs). -/
structure FundingMarket where
  last_updated : Nat
  funding_index : Int
deriving DecidableEq, Repr

/-- A Funding document as inserted by poll_update_funding (recorder.rs). -/
structure FundingDoc where
  symbol : Nat
  funding_index : Int
  time : Nat
deriving DecidableEq, Repr

/-- Embedding of one iteration of the poll_update_funding loop
    (recorder.rs): filter the markets whose last_updated strictly exceeds
    the stored per-symbol value, build one Funding document per survivor,
    and only when the insert succeeds advance the stored values.  Returns
    the inserted documents and the new stored map. -/
def poll_update_funding_step (prev : Nat → Nat)
    (markets : List (Nat × FundingMarket)) (insert_ok : Bool) :
    List FundingDoc × (Nat → Nat) :=
  let to_update := markets.filter (fun sm => prev sm.1 < sm.2.last_updated)
  if to_update.isEmpty then ([], prev)
  else
    let new_entries := to_update.map
      (fun sm => FundingDoc.mk sm.1 sm.2.funding_index sm.2.last_updated)
    if insert_ok then
      (new_entries,
        to_update.foldl
          (fun p sm => fun s => if s = sm.1 then sm.2.last_updated else p s)
          prev)
    else ([], prev)

/-- An all-zero open-orders summary. -/
def oo0 : OpenOrdersInfo := OpenOrdersInfo.mk 0 0 0 0 0 0

/-- A Control with no positions and no orders. -/
def control0 : Control := Control.mk (fun _ => oo0)

/-- A Margin with zero collateral everywhere. -/
def margin0 : Margin := Margin.mk (fun _ => 0)

/-- A State with no live collaterals or markets. -/
def state0 : State :=
  State.mk 0 0 (fun _ => CollateralInfo.mk 0 0 0)
    (fun _ => PerpMarketInfo.mk 0 PerpType.Future 0 0)

/-- A Cache with all prices, multipliers and funding indices zero. -/
def cache0 : Cache :=
  Cache.mk (fun _ => 0) (fun _ => 0) (fun _ => BorrowCache.mk 0 0) (fun _ => 0)

/-- A Control holding one long position on market 0 with user funding
    index 5 and no realized pnl. -/
def c2_control : Control :=
  Control.mk (fun i => if i = 0 then OpenOrdersInfo.mk 1 0 0 0 0 5 else oo0)

/-- A Control that is flat on market 0 yet carries nonzero realized pnl,
    native_pc_total and funding index there. -/
def c10_control : Control :=
  Control.mk (fun i => if i = 0 then OpenOrdersInfo.mk 0 0 0 11 7 9 else oo0)

/-- A Cache whose market-0 mark price is one. -/
def c3_cache : Cache :=
  Cache.mk (fun _ => 0) (fun i => if i = 0 then 1 else 0)
    (fun _ => BorrowCache.mk 0 0) (fun _ => 0)

/-- A Control with one resting ask on market 0. -/
def c3_control : Control :=
  Control.mk (fun i => if i = 0 then OpenOrdersInfo.mk 0 0 1 0 0 0 else oo0)

/-- The outcome stream of a send whose first attempt is an RPC error
    without a custom program error code and whose second would succeed. -/
def c4_outcomes : Nat → SendOutcome :=
  fun i => if i = 0 then SendOutcome.rpcNoCode else SendOutcome.ok 7

/-- C1, counterexample: the per-perp Cancel and Maintenance factors of
    weight_conversion are 5/8 and 1/2 (binary digit strings 0.101 and 0.1),
    not the decimal constants 0.101 and 0.1 the claim states. -/
theorem c1_counterexample :
    weight_conversion MfReturnOption.Cmf 1 1 false = 5 / 8 ∧
    weight_conversion MfReturnOption.Mmf 1 1 false = 1 / 2 ∧
    weight_conversion MfReturnOption.Cmf 1 1 false ≠ 101 / 1000 ∧
    weight_conversion MfReturnOption.Mmf 1 1 false ≠ 1 / 10 := by
  refine ⟨?_, ?_, ?_, ?_⟩ <;> norm_num [weight_conversion]

/-- C1 (amended): for every position and base weight, the per-perp weight
    of the Cancel margin fraction equals sign(position) times 5/8 times the
    base weight, and the per-perp weight of the Maintenance fraction equals
    sign(position) times 1/2 times the base weight, where the sign is minus
    one for negative positions and plus one otherwise; 5/8 and 1/2 are the
    values of the binary-digit constants 0.101 and 0.1 of the source. -/
theorem c1_weight_conversion_perp (position base_weight : Rat) :
    weight_conversion MfReturnOption.Cmf position base_weight false =
      (if position < 0 then (-1 : Rat) else 1) * ((5 / 8) * base_weight) ∧
    weight_conversion MfReturnOption.Mmf position base_weight false =
      (if position < 0 then (-1 : Rat) else 1) * ((1 / 2) * base_weight) := by
  constructor <;> simp [weight_conversion]

/-- C2, counterexample: with a long position of one, user funding index 5,
    market funding index 3 and zero decimals, the realized-pnl entry the
    code produces is 2 = 1 times (5 minus 3), while the claim's formula
    (market minus user) gives minus 2. -/
theorem c2_counterexample :
    (get_pnl_vectors c2_control state0 cache0 (fun _ => 3)).1 25 = 2 ∧
    spec_funding_accrual 1 5 3 0 = -2 ∧ (2 : Rat) ≠ -2 := by
  refine ⟨?_, ?_, ?_⟩ <;>
    norm_num [get_pnl_vectors, spec_funding_accrual, c2_control, state0,
      MAX_COLLATERALS, TOTAL_SLOTS, MAX_MARKETS]

/-- C2 (amended): for every control and perp index with non-zero position,
    the realized-pnl entry equals pos_size times (user funding index minus
    market funding index) over ten to the asset decimals, plus the carried
    realized pnl — the market index is subtracted from the user index. -/
theorem c2_funding_accrual (control : Control) (state : State) (cache : Cache)
    (funding_cache : Nat → Rat) (i : Nat) (hi : i < MAX_MARKETS)
    (hpos : (control.open_orders_agg i).pos_size ≠ 0) :
    (get_pnl_vectors control state cache funding_cache).1
        (MAX_COLLATERALS + i) =
      ((control.open_orders_agg i).pos_size : Rat) *
          (((control.open_orders_agg i).funding_index : Rat) -
            funding_cache i) /
          ((10 : Rat) ^ (state.perp_markets i).asset_decimals) +
        ((control.open_orders_agg i).realized_pnl : Rat) := by
  have hb : MAX_COLLATERALS ≤ MAX_COLLATERALS + i ∧
      MAX_COLLATERALS + i < TOTAL_SLOTS := by
    unfold TOTAL_SLOTS
    omega
  simp only [get_pnl_vectors]
  rw [if_pos hb]
  simp only [Nat.add_sub_cancel_left]
  rw [if_neg hpos]
  ring

/-- Witness for the amended C2 theorem at the concrete counterexample
    control: index 0 is in range, its position is non-zero, and the
    realized entry matches the user-minus-market formula. -/
theorem c2_funding_accrual_witness :
    (0 < MAX_MARKETS ∧ (c2_control.open_orders_agg 0).pos_size ≠ 0) ∧
    (get_pnl_vectors c2_control state0 cache0 (fun _ => 3)).1
        (MAX_COLLATERALS + 0) =
      ((c2_control.open_orders_agg 0).pos_size : Rat) *
          (((c2_control.open_orders_agg 0).funding_index : Rat) - 3) /
          ((10 : Rat) ^ (state0.perp_markets 0).asset_decimals) +
        ((c2_control.open_orders_agg 0).realized_pnl : Rat) :=
  ⟨⟨by decide, by decide⟩,
    c2_funding_accrual c2_control state0 cache0 (fun _ => 3) 0 (by decide)
      (by decide)⟩

/-- C10: a perp market whose position size is zero contributes exactly zero
    to both the realized and the unrealized pnl vector, whatever realized
    pnl, funding index or native_pc_total its open-orders summary carries;
    since the margin fractions are computed from these vectors, realized
    pnl carried on a flat position never affects them. -/
theorem c10_flat_position_zero_pnl (control : Control) (state : State)
    (cache : Cache) (funding_cache : Nat → Rat) (i : Nat)
    (hpos : (control.open_orders_agg i).pos_size = 0) :
    (get_pnl_vectors control state cache funding_cache).1
        (MAX_COLLATERALS + i) = 0 ∧
    (get_pnl_vectors control state cache funding_cache).2
        (MAX_COLLATERALS + i) = 0 := by
  constructor <;> simp [get_pnl_vectors, hpos]

/-- Witness for C10 at a control that is flat on market 0 but carries
    realized pnl 7, funding index 9 and native_pc_total 11 there. -/
theorem c10_flat_position_zero_pnl_witness :
    ((c10_control.open_orders_agg 0).pos_size = 0 ∧
      (c10_control.open_orders_agg 0).realized_pnl = 7 ∧
      (c10_control.open_orders_agg 0).funding_index = 9 ∧
      (c10_control.open_orders_agg 0).native_pc_total = 11) ∧
    (get_pnl_vectors c10_control state0 cache0 (fun _ => 3)).1
        (MAX_COLLATERALS + 0) = 0 ∧
    (get_pnl_vectors c10_control state0 cache0 (fun _ => 3)).2
        (MAX_COLLATERALS + 0) = 0 :=
  ⟨⟨by decide, by decide, by decide, by decide⟩,
    c10_flat_position_zero_pnl c10_control state0 cache0 (fun _ => 3) 0
      (by decide)⟩

/-- C8, counterexample: for the key whose 32 bytes are all 8 and worker
    count 9, the claimed assignment (mathematical byte-remainder sum mod 9)
    is 4, but the source accumulates the sum in a u8 which wraps at 256, so
    is_right_remainder places the key at worker 0, not worker 4. -/
theorem c8_counterexample :
    (((List.replicate 32 8).map (fun b => b % 9)).sum) % 9 = 4 ∧
    is_right_remainder (List.replicate 32 8) 9 4 = false ∧
    is_right_remainder (List.replicate 32 8) 9 0 = true := by
  refine ⟨by decide, by decide, by decide⟩

/-- C8 (amended): with the byte-remainder sum accumulated modulo 256 as the
    u8 of the source does, the assignment is still a single integer in
    [0, N), so for every key and every worker count N at least one,
    is_right_remainder holds for exactly one worker index below N: the
    shards are pairwise disjoint and cover the whole key space. -/
theorem c8_shard_partition (bytes : List Nat) (modulus : Nat)
    (hm : 1 ≤ modulus) :
    ∃! r : Nat, r < modulus ∧ is_right_remainder bytes modulus r = true := by
  refine ⟨control_key_sum bytes modulus % modulus,
    ⟨Nat.mod_lt _ hm, by simp [is_right_remainder]⟩, ?_⟩
  rintro y ⟨-, hy⟩
  simp only [is_right_remainder, beq_iff_eq] at hy
  exact hy.symm

/-- Witness for the amended C8 theorem at a concrete key and worker
    count 3. -/
theorem c8_shard_partition_witness :
    1 ≤ 3 ∧
      ∃! r : Nat, r < 3 ∧ is_right_remainder [1, 2, 3] 3 r = true :=
  ⟨by decide, c8_shard_partition [1, 2, 3] 3 (by decide)⟩

/-- If every attempt before index i is transient and attempt i settles the
    loop with result r, retry_send returns r whenever the bound covers i. -/
theorem retry_send_first_ret :
    ∀ (i : Nat) (outcomes : Nat → SendOutcome) (n : Nat)
      (r : Except ErrorCode Nat), i < n →
      (∀ j, j < i → is_transient (outcomes j) = true) →
      attempt_step (outcomes i) = AttemptStep.ret r →
      retry_send outcomes n = r := by
  intro i
  induction i with
  | zero =>
    intro outcomes n r hn hj hstep
    cases n with
    | zero => exact absurd hn (by omega)
    | succ m => simp [retry_send, hstep]
  | succ k ih =>
    intro outcomes n r hn hj hstep
    cases n with
    | zero => exact absurd hn (by omega)
    | succ m =>
      have h0 := hj 0 (Nat.succ_pos k)
      have hnext : attempt_step (outcomes 0) = AttemptStep.next := by
        revert h0
        unfold is_transient
        cases attempt_step (outcomes 0) with
        | ret r2 => intro h; exact absurd h (by simp)
        | next => intro _; rfl
      simp only [retry_send, hnext]
      exact ih (fun j => outcomes (j + 1)) m r (by omega)
        (fun j hjk => hj (j + 1) (by omega)) hstep

/-- If every attempt within the bound is transient, retry_send exhausts the
    bound and returns TimeoutExceeded. -/
theorem retry_send_all_transient :
    ∀ (n : Nat) (outcomes : Nat → SendOutcome),
      (∀ j, j < n → is_transient (outcomes j) = true) →
      retry_send outcomes n = Except.error ErrorCode.TimeoutExceeded := by
  intro n
  induction n with
  | zero => intro outcomes _; rfl
  | succ m ih =>
    intro outcomes hj
    have h0 := hj 0 (Nat.succ_pos m)
    have hnext : attempt_step (outcomes 0) = AttemptStep.next := by
      revert h0
      unfold is_transient
      cases attempt_step (outcomes 0) with
      | ret r2 => intro h; exact absurd h (by simp)
      | next => intro _; rfl
    simp only [retry_send, hnext]
    exact ih (fun j => outcomes (j + 1)) (fun j hjm => hj (j + 1) (by omega))

/-- C4 (amended): custom program error codes 6006, 6016, 6046 make
    retry_send return LiquidationOverExposure and codes 6007, 6011, 6012,
    6017, 6052 make it return UnrecoverableTransactionError, each on the
    first attempt that produces them after transient attempts; any other
    custom code, a reqwest error or a transaction error is transient; but
    an RPC error carrying no custom program error code immediately returns
    UnrecoverableTransactionError rather than continuing; exhausting the
    attempt bound on transient errors yields TimeoutExceeded. -/
theorem c4_retry_send_codes :
    (∀ c : Nat, (c = 6006 ∨ c = 6016 ∨ c = 6046) →
      attempt_step (SendOutcome.rpcCustom c) =
        AttemptStep.ret (Except.error ErrorCode.LiquidationOverExposure)) ∧
    (∀ c : Nat, (c = 6007 ∨ c = 6011 ∨ c = 6012 ∨ c = 6017 ∨ c = 6052) →
      attempt_step (SendOutcome.rpcCustom c) =
        AttemptStep.ret
          (Except.error ErrorCode.UnrecoverableTransactionError)) ∧
    (∀ c : Nat, ¬(c = 6006 ∨ c = 6016 ∨ c = 6046) →
      ¬(c = 6007 ∨ c = 6011 ∨ c = 6012 ∨ c = 6017 ∨ c = 6052) →
      attempt_step (SendOutcome.rpcCustom c) = AttemptStep.next) ∧
    (attempt_step SendOutcome.rpcNoCode =
      AttemptStep.ret (Except.error ErrorCode.UnrecoverableTransactionError)) ∧
    (is_transient SendOutcome.reqwestErr = true ∧
      is_transient SendOutcome.transactionErr = true) ∧
    (∀ (outcomes : Nat → SendOutcome) (n i : Nat) (r : Except ErrorCode Nat),
      i < n → (∀ j, j < i → is_transient (outcomes j) = true) →
      attempt_step (outcomes i) = AttemptStep.ret r →
      retry_send outcomes n = r) ∧
    (∀ (outcomes : Nat → SendOutcome) (n : Nat),
      (∀ j, j < n → is_transient (outcomes j) = true) →
      retry_send outcomes n = Except.error ErrorCode.TimeoutExceeded) := by
  refine ⟨?_, ?_, ?_, rfl, ⟨rfl, rfl⟩,
    fun outcomes n i r h1 h2 h3 => retry_send_first_ret i outcomes n r h1 h2 h3,
    fun outcomes n h => retry_send_all_transient n outcomes h⟩
  · rintro c (rfl | rfl | rfl) <;> rfl
  · rintro c (rfl | rfl | rfl | rfl | rfl) <;> rfl
  · intro c h1 h2
    have h3 : ¬(c = 6007 ∨ c = 6012 ∨ c = 6011) := by omega
    have h4 : ¬(c = 6017) := by omega
    have h5 : ¬(c = 6052) := by omega
    simp only [attempt_step]
    rw [if_neg h1, if_neg h3, if_neg h4, if_neg h5]

/-- Witness for the amended C4 theorem: a single successful attempt makes
    retry_send return the signature. -/
theorem c4_retry_send_codes_witness :
    (0 : Nat) < 1 ∧
      retry_send (fun _ => SendOutcome.ok 7) 1 = Except.ok 7 :=
  ⟨by decide,
    c4_retry_send_codes.2.2.2.2.2.1 (fun _ => SendOutcome.ok 7) 1 0
      (Except.ok 7) (by decide) (fun j hj => absurd hj (by omega)) rfl⟩

/-- C4, counterexample: the claim says any RPC error other than the listed
    custom codes is transient and the loop continues; but an RPC error
    without a custom program error code makes retry_send return
    UnrecoverableTransactionError at once, so a stream whose first attempt
    is such an error and whose second attempt would succeed does not return
    the success the claim predicts. -/
theorem c4_counterexample :
    retry_send c4_outcomes 2 =
      Except.error ErrorCode.UnrecoverableTransactionError ∧
    retry_send c4_outcomes 2 ≠ Except.ok 7 := by
  constructor
  · rfl
  · intro h
    exact Except.noConfusion
      ((rfl : retry_send c4_outcomes 2 =
          Except.error ErrorCode.UnrecoverableTransactionError).symm.trans h)

/-- A run of pending-with-valid-blockhash polls is skipped, consuming one
    retry per poll. -/
theorem dispatch_poll_go_pendingValid (sig : Nat) :
    ∀ (pre : List PollObs) (n : Nat) (obs : List PollObs),
      (∀ o ∈ pre, o = PollObs.pendingValid) → pre.length < n →
      dispatch_poll_go sig n (pre ++ obs) =
        dispatch_poll_go sig (n - pre.length) obs := by
  intro pre
  induction pre with
  | nil => intro n obs _ _; simp
  | cons o os ih =>
    intro n obs hall hlen
    have ho : o = PollObs.pendingValid := hall o (List.mem_cons_self o os)
    subst ho
    cases n with
    | zero => exact absurd hlen (by omega)
    | succ m =>
      simp only [List.cons_append, dispatch_poll_go]
      have hlen2 : os.length < m := by
        simp only [List.length_cons] at hlen
        omega
      have := ih m obs (fun x hx => hall x (List.mem_cons_of_mem _ hx)) hlen2
      simpa [Nat.succ_sub_succ] using this

/-- Exhausting the whole retry budget on pending-valid polls times out,
    never looking past the budget. -/
theorem dispatch_poll_go_exhaust (sig : Nat) :
    ∀ (n : Nat) (rest : List PollObs),
      dispatch_poll_go sig n
          (List.replicate n PollObs.pendingValid ++ rest) =
        DispatchResult.confirmationTimeout sig := by
  intro n
  induction n with
  | zero => intro rest; rfl
  | succ m ih =>
    intro rest
    simp only [List.replicate_succ, List.cons_append, dispatch_poll_go]
    exact ih rest

/-- C7: the dispatch helper polls at most 25 times at 2000 ms intervals;
    after any run of pending polls with a valid blockhash that fits the
    budget, the first confirmed status returns the signature, an execution
    error returns the structured error, and a pending status whose
    blockhash is no longer valid at processed commitment exits the loop
    with ConfirmationTimeout carrying the signature; 25 pending-valid polls
    exhaust the budget and also yield ConfirmationTimeout. -/
theorem c7_dispatch_confirmation :
    GET_STATUS_RETRIES = 25 ∧ GET_STATUS_WAIT = 2000 ∧
    (∀ (sig : Nat) (pre rest : List PollObs),
      pre.length < GET_STATUS_RETRIES →
      (∀ o ∈ pre, o = PollObs.pendingValid) →
      dispatch_poll sig (pre ++ PollObs.confirmed :: rest) =
          DispatchResult.ok sig ∧
        (∀ e, dispatch_poll sig (pre ++ PollObs.failed e :: rest) =
          DispatchResult.execError e) ∧
        dispatch_poll sig (pre ++ PollObs.pendingInvalid :: rest) =
          DispatchResult.confirmationTimeout sig) ∧
    (∀ (sig : Nat) (rest : List PollObs),
      dispatch_poll sig
          (List.replicate GET_STATUS_RETRIES PollObs.pendingValid ++ rest) =
        DispatchResult.confirmationTimeout sig) := by
  refine ⟨rfl, rfl, ?_, ?_⟩
  · intro sig pre rest hlen hall
    have key : ∀ obs : List PollObs,
        dispatch_poll_go sig GET_STATUS_RETRIES (pre ++ obs) =
          dispatch_poll_go sig (GET_STATUS_RETRIES - pre.length) obs :=
      fun obs =>
        dispatch_poll_go_pendingValid sig pre GET_STATUS_RETRIES obs hall hlen
    obtain ⟨m, hm⟩ : ∃ m, GET_STATUS_RETRIES - pre.length = m + 1 :=
      ⟨GET_STATUS_RETRIES - pre.length - 1, by omega⟩
    refine ⟨?_, fun e => ?_, ?_⟩ <;>
      · unfold dispatch_poll
        rw [key, hm]
        rfl
  · intro sig rest
    unfold dispatch_poll
    exact dispatch_poll_go_exhaust sig GET_STATUS_RETRIES rest

/-- Witness for C7: an immediately confirmed poll returns the signature. -/
theorem c7_dispatch_confirmation_witness :
    ([] : List PollObs).length < GET_STATUS_RETRIES ∧
      dispatch_poll 7 [PollObs.confirmed] = DispatchResult.ok 7 :=
  ⟨by decide,
    (c7_dispatch_confirmation.2.2.1 7 [] [] (by decide) (by simp)).1⟩

/-- The per-symbol store loop of poll_update_funding never decreases any
    stored value, provided each stored update is at least the base value
    for its symbol. -/
theorem funding_store_le (p0 : Nat → Nat) :
    ∀ (l : List (Nat × FundingMarket)) (p : Nat → Nat),
      (∀ sm ∈ l, p0 sm.1 ≤ sm.2.last_updated) →
      (∀ s, p0 s ≤ p s) →
      ∀ s, p0 s ≤
        (l.foldl
          (fun q sm => fun s2 =>
            if s2 = sm.1 then sm.2.last_updated else q s2) p) s := by
  intro l
  induction l with
  | nil => intro p _ hp s; exact hp s
  | cons sm sms ih =>
    intro p hl hp s
    refine ih _ (fun x hx => hl x (List.mem_cons_of_mem _ hx)) ?_ s
    intro s2
    show p0 s2 ≤ if s2 = sm.1 then sm.2.last_updated else p s2
    by_cases h : s2 = sm.1
    · rw [if_pos h, h]
      exact hl sm (List.mem_cons_self sm sms)
    · rw [if_neg h]
      exact hp s2

/-- C9: in one iteration of the funding poll loop, a Funding document is
    produced for a symbol only when the market last_updated strictly
    exceeds the stored per-symbol value; the stored map is unchanged when
    the insert fails; and the stored map never decreases, so it is
    monotonically non-decreasing across iterations. -/
theorem c9_funding_monotone (prev : Nat → Nat)
    (markets : List (Nat × FundingMarket)) (insert_ok : Bool) :
    (∀ d ∈ (poll_update_funding_step prev markets insert_ok).1,
      prev d.symbol < d.time) ∧
    (insert_ok = false →
      (poll_update_funding_step prev markets insert_ok).2 = prev) ∧
    (∀ s, prev s ≤ (poll_update_funding_step prev markets insert_ok).2 s) := by
  unfold poll_update_funding_step
  by_cases h1 :
      (markets.filter (fun sm => prev sm.1 < sm.2.last_updated)).isEmpty = true
  · rw [if_pos h1]
    exact ⟨fun d hd => absurd hd (List.not_mem_nil d), fun _ => rfl,
      fun s => Nat.le_refl _⟩
  · rw [if_neg h1]
    cases insert_ok with
    | false =>
      exact ⟨fun d hd => absurd hd (List.not_mem_nil d), fun _ => rfl,
        fun s => Nat.le_refl _⟩
    | true =>
      refine ⟨?_, fun h => Bool.noConfusion h, ?_⟩
      · intro d hd
        obtain ⟨sm, hsm, rfl⟩ := List.mem_map.mp hd
        have := (List.mem_filter.mp hsm).2
        simpa using this
      · refine funding_store_le prev _ prev ?_ (fun s => Nat.le_refl _)
        intro sm hsm
        have := (List.mem_filter.mp hsm).2
        simp at this
        omega

/-- Witness for C9 at a concrete iteration: stored value 100, market
    advanced to 200, insert succeeds; the produced document time exceeds
    the stored value. -/
theorem c9_funding_monotone_witness :
    FundingDoc.mk 0 5 200 ∈
        (poll_update_funding_step (fun _ => 100)
          [(0, FundingMarket.mk 200 5)] true).1 ∧
      (fun _ => (100 : Nat)) (FundingDoc.mk 0 5 200).symbol <
        (FundingDoc.mk 0 5 200).time :=
  ⟨by decide,
    (c9_funding_monotone (fun _ => 100) [(0, FundingMarket.mk 200 5)] true).1
      (FundingDoc.mk 0 5 200) (by decide)⟩

/-- The max_by_key scan result dominates every scanned index and every
    candidate already in the accumulator. -/
theorem order_step_foldl_ge (cache : Cache) (control : Control) :
    ∀ (l : List Nat) (acc : Option Nat) (i : Nat),
      (i ∈ l ∨ ∃ k, acc = some k ∧
        order_notional cache control i ≤ order_notional cache control k) →
      ∃ j, l.foldl (order_step cache control) acc = some j ∧
        order_notional cache control i ≤ order_notional cache control j := by
  intro l
  induction l with
  | nil =>
    rintro acc i (h | ⟨k, rfl, hk⟩)
    · exact absurd h (List.not_mem_nil i)
    · exact ⟨k, rfl, hk⟩
  | cons a as ih =>
    rintro acc i h
    simp only [List.foldl_cons]
    rcases h with h | ⟨k, rfl, hk⟩
    · rcases List.mem_cons.mp h with rfl | hmem
      · refine ih (order_step cache control acc i) i (Or.inr ?_)
        cases acc with
        | none => exact ⟨i, rfl, le_refl _⟩
        | some j =>
          by_cases hle : order_notional cache control j ≤
              order_notional cache control i
          · exact ⟨i, by simp [order_step, hle], le_refl _⟩
          · exact ⟨j, by simp [order_step, hle], le_of_not_le hle⟩
      · exact ih _ i (Or.inl hmem)
    · refine ih (order_step cache control (some k) a) i (Or.inr ?_)
      by_cases hle : order_notional cache control k ≤
          order_notional cache control a
      · exact ⟨a, by simp [order_step, hle], le_trans hk hle⟩
      · exact ⟨k, by simp [order_step, hle], hk⟩

/-- If every scanned notional is zero and every accumulator candidate has
    zero notional, the scan result has zero notional. -/
theorem order_step_foldl_zero (cache : Cache) (control : Control) :
    ∀ (l : List Nat) (acc : Option Nat),
      (∀ i ∈ l, order_notional cache control i = 0) →
      (∀ j, acc = some j → order_notional cache control j = 0) →
      ∀ j, l.foldl (order_step cache control) acc = some j →
        order_notional cache control j = 0 := by
  intro l
  induction l with
  | nil => exact fun acc _ hacc j hj => hacc j hj
  | cons a as ih =>
    intro acc hl hacc j hj
    simp only [List.foldl_cons] at hj
    refine ih _ (fun x hx => hl x (List.mem_cons_of_mem _ hx)) ?_ j hj
    intro m hm
    cases acc with
    | none =>
      have hma : m = a := by simpa [order_step] using hm.symm
      subst hma
      exact hl m (List.mem_cons_self m as)
    | some k =>
      by_cases hle : order_notional cache control k ≤
          order_notional cache control a
      · have hma : m = a := by simpa [order_step, hle] using hm.symm
        subst hma
        exact hl m (List.mem_cons_self m as)
      · have hmk : m = k := by simpa [order_step, hle] using hm.symm
        subst hmk
        exact hacc m rfl

/-- An in-range market slot with strictly positive order notional makes
    has_open_orders true. -/
theorem has_open_orders_of_pos (cache : Cache) (control : Control) (i : Nat)
    (hi : i < MAX_MARKETS) (hpos : 0 < order_notional cache control i) :
    has_open_orders cache control = true := by
  obtain ⟨j, hj, hle⟩ :=
    order_step_foldl_ge cache control (List.range MAX_MARKETS) none i
      (Or.inl (List.mem_range.mpr hi))
  unfold has_open_orders largest_open_order
  rw [hj]
  show (if order_notional cache control j = 0 then none else some j).isSome =
    true
  rw [if_neg (lt_of_lt_of_le hpos hle).ne']
  rfl

/-- If every order notional is zero, has_open_orders is false. -/
theorem has_open_orders_of_zero (cache : Cache) (control : Control)
    (h : ∀ i, order_notional cache control i = 0) :
    has_open_orders cache control = false := by
  unfold has_open_orders largest_open_order
  cases hbest : (List.range MAX_MARKETS).foldl (order_step cache control) none
    with
  | none => rfl
  | some j =>
    show (if order_notional cache control j = 0 then none else some j).isSome =
      false
    rw [if_pos (h j)]
    rfl

/-- C3, counterexample: on an account with a resting open order (so
    has_open_orders is true) whose Maintenance check failed, the code
    classifies it NOT liquidatable — the liquidate flag additionally
    requires the absence of open orders — while the claim classifies it
    liquidatable; the claim-side classifier also demands an open order for
    cancelling, which the code does not. -/
theorem c3_counterexample :
    has_open_orders c3_cache c3_control = true ∧
    is_liquidatable (some false) (some false) c3_cache c3_control =
      some (true, false) ∧
    spec_classification false false true = (true, true) := by
  have hoo : has_open_orders c3_cache c3_control = true :=
    has_open_orders_of_pos c3_cache c3_control 0
      (by norm_num [MAX_MARKETS])
      (by norm_num [order_notional, c3_cache, c3_control])
  exact ⟨hoo, by simp [is_liquidatable, hoo], rfl⟩

/-- C3 (amended): when both fraction checks return, the account is
    classified cancellable exactly when the Cancel check is not satisfied
    (with no condition on resting orders), and liquidatable exactly when
    the Maintenance check is not satisfied AND the account has no resting
    open order. -/
theorem c3_classification (rc rm : Bool) (cache : Cache) (control : Control)
    (res : Bool × Bool)
    (h : is_liquidatable (some rc) (some rm) cache control = some res) :
    (res.1 = true ↔ rc = false) ∧
    (res.2 = true ↔ rm = false ∧ has_open_orders cache control = false) := by
  simp only [is_liquidatable, Option.some.injEq] at h
  subst h
  cases rc <;> cases rm <;> cases hoo : has_open_orders cache control <;>
    simp [hoo]

/-- Witness for the amended C3 theorem at the concrete account with a
    resting order and both checks violated. -/
theorem c3_classification_witness :
    (((true, false) : Bool × Bool).1 = true ↔ false = false) ∧
    (((true, false) : Bool × Bool).2 = true ↔
      false = false ∧ has_open_orders c3_cache c3_control = false) :=
  c3_classification false false c3_cache c3_control (true, false)
    (by
      have hoo : has_open_orders c3_cache c3_control = true :=
        has_open_orders_of_pos c3_cache c3_control 0
          (by norm_num [MAX_MARKETS])
          (by norm_num [order_notional, c3_cache, c3_control])
      simp [is_liquidatable, hoo])

/-- A margin-fraction aggregate over all-zero position, realized and
    unrealized vectors is zero, for every mode. -/
theorem get_mf_zero (mode : MfReturnOption)
    (position prices realized unrealized base_weight : Nat → Rat)
    (hpos : ∀ i, i < TOTAL_SLOTS → position i = 0)
    (hr : ∀ i, i < TOTAL_SLOTS → realized i = 0)
    (hu : ∀ i, i < TOTAL_SLOTS → unrealized i = 0) :
    get_mf mode position prices realized unrealized base_weight = 0 := by
  have hR : sumVec realized = 0 := by
    refine List.sum_eq_zero ?_
    intro x hx
    obtain ⟨i, hi, rfl⟩ := List.mem_map.mp hx
    exact hr i (List.mem_range.mp hi)
  have hU : sumVec unrealized = 0 := by
    refine List.sum_eq_zero ?_
    intro x hx
    obtain ⟨i, hi, rfl⟩ := List.mem_map.mp hx
    exact hu i (List.mem_range.mp hi)
  simp only [get_mf, hR, hU]
  have hcore : (List.map (fun i =>
      (if i = 0 then (0 : Rat) *
          weight_conversion mode (position i) (base_weight i)
            (decide (i < MAX_COLLATERALS)) else 0) +
        position i * (prices i *
          weight_conversion mode (position i) (base_weight i)
            (decide (i < MAX_COLLATERALS))))
      (List.range TOTAL_SLOTS)).sum = 0 := by
    refine List.sum_eq_zero ?_
    intro x hx
    obtain ⟨i, hi, rfl⟩ := List.mem_map.mp hx
    rw [hpos i (List.mem_range.mp hi)]
    simp
  rw [hcore]
  cases mode <;> simp

/-- The position vector of the all-zero fixture account is zero. -/
theorem fixture_position_zero :
    ∀ i, get_position_vector margin0 control0 i = 0 := by
  intro i
  unfold get_position_vector
  split_ifs <;> simp [margin0, control0, oo0]

/-- The realized-pnl vector of the all-zero fixture account is zero. -/
theorem fixture_realized_zero (fc : Nat → Rat) :
    ∀ i, (get_pnl_vectors control0 state0 cache0 fc).1 i = 0 := by
  intro i
  simp [get_pnl_vectors, control0, oo0]

/-- The unrealized-pnl vector of the all-zero fixture account is zero. -/
theorem fixture_unrealized_zero (fc : Nat → Rat) :
    ∀ i, (get_pnl_vectors control0 state0 cache0 fc).2 i = 0 := by
  intro i
  simp [get_pnl_vectors, control0, oo0]

/-- The maintenance margin fraction of the all-zero account is zero. -/
theorem fixture_mf_zero : maintenance_mf margin0 control0 state0 cache0 = 0 := by
  unfold maintenance_mf
  exact get_mf_zero _ _ _ _ _ _
    (fun i _ => fixture_position_zero i)
    (fun i _ => fixture_realized_zero _ i)
    (fun i _ => fixture_unrealized_zero _ i)

/-- The maintenance requirement of the all-zero account is zero. -/
theorem fixture_mmf_zero :
    maintenance_mmf margin0 control0 state0 cache0 = 0 := by
  unfold maintenance_mmf
  exact get_mf_zero _ _ _ _ _ _
    (fun i _ => fixture_position_zero i)
    (fun i _ => fixture_realized_zero _ i)
    (fun i _ => fixture_unrealized_zero _ i)

/-- C6: the Maintenance check is satisfied exactly when the margin
    fraction is at least the tolerance-scaled requirement, so an account
    sitting exactly on the tolerance boundary is satisfied and is not
    liquidated: the liquidation condition is the strict inequality. -/
theorem c6_maintenance_boundary (margin : Margin) (control : Control)
    (state : State) (cache : Cache) (tolerance : Rat) :
    (check_mf FractionType.Maintenance margin control state cache tolerance =
        true ↔
      maintenance_mf margin control state cache ≥
        maintenance_mmf margin control state cache * tolerance) ∧
    (maintenance_mf margin control state cache =
        maintenance_mmf margin control state cache * tolerance →
      check_mf FractionType.Maintenance margin control state cache tolerance =
        true) := by
  have hiff : check_mf FractionType.Maintenance margin control state cache
      tolerance = true ↔
      maintenance_mf margin control state cache ≥
        maintenance_mmf margin control state cache * tolerance := by
    simp only [check_mf, maintenance_mf, maintenance_mmf, decide_eq_true_eq]
  exact ⟨hiff, fun h => hiff.mpr (le_of_eq h.symm)⟩

/-- Witness for C6: the all-zero account sits exactly on the boundary at
    the production tolerance and is reported satisfied. -/
theorem c6_maintenance_boundary_witness :
    maintenance_mf margin0 control0 state0 cache0 =
      maintenance_mmf margin0 control0 state0 cache0 *
        (99995 / 100000 : Rat) ∧
    check_mf FractionType.Maintenance margin0 control0 state0 cache0
      (99995 / 100000) = true := by
  have hb : maintenance_mf margin0 control0 state0 cache0 =
      maintenance_mmf margin0 control0 state0 cache0 *
        (99995 / 100000 : Rat) := by
    rw [fixture_mf_zero, fixture_mmf_zero]
    ring
  exact ⟨hb,
    (c6_maintenance_boundary margin0 control0 state0 cache0
      (99995 / 100000)).2 hb⟩

/-- The lexicographic key order is irreflexive. -/
theorem keyLtB_irrefl (a : U64x4) : keyLtB a a = false := by
  obtain ⟨a0, a1, a2, a3⟩ := a
  simp [keyLtB]

/-- Characterization of the lexicographic key order as a proposition. -/
theorem keyLtB_iff (a b : U64x4) :
    keyLtB a b = true ↔
      a.1 < b.1 ∨ (a.1 = b.1 ∧ (a.2.1 < b.2.1 ∨ (a.2.1 = b.2.1 ∧
        (a.2.2.1 < b.2.2.1 ∨ (a.2.2.1 = b.2.2.1 ∧
          a.2.2.2 < b.2.2.2))))) := by
  obtain ⟨a0, a1, a2, a3⟩ := a
  obtain ⟨b0, b1, b2, b3⟩ := b
  simp only [keyLtB]
  split_ifs <;> simp <;> omega

/-- The lexicographic key order is transitive. -/
theorem keyLtB_trans {a b c : U64x4} (h1 : keyLtB a b = true)
    (h2 : keyLtB b c = true) : keyLtB a c = true := by
  rw [keyLtB_iff] at h1 h2 ⊢
  omega

/-- Keys that are not ordered either way are equal. -/
theorem keyLtB_conn {a b : U64x4} (h1 : keyLtB a b = false)
    (h2 : keyLtB b a = false) : a = b := by
  have h1p := (keyLtB_iff a b).not.mp (by simp [h1])
  have h2p := (keyLtB_iff b a).not.mp (by simp [h2])
  have ha : a = (a.1, a.2.1, a.2.2.1, a.2.2.2) := rfl
  have hb : b = (b.1, b.2.1, b.2.2.1, b.2.2.2) := rfl
  rw [ha, hb]
  simp only [Prod.mk.injEq]
  omega

/-- Membership in an ordered insertion. -/
theorem mem_insertKey {a e : U64x4} :
    ∀ {s : List U64x4}, a ∈ insertKey e s ↔ a = e ∨ a ∈ s := by
  intro s
  induction s with
  | nil => simp [insertKey]
  | cons x xs ih =>
    by_cases h1 : keyLtB e x = true
    · simp [insertKey, h1]
    · by_cases h2 : keyLtB x e = true
      · have h1f : keyLtB e x = false := by
          revert h1; cases keyLtB e x <;> simp
        simp only [insertKey, h1f, h2, Bool.false_eq_true, if_false, if_true,
          List.mem_cons, ih]
        tauto
      · have h1f : keyLtB e x = false := by
          revert h1; cases keyLtB e x <;> simp
        have h2f : keyLtB x e = false := by
          revert h2; cases keyLtB x e <;> simp
        have hex : e = x := keyLtB_conn h1f h2f
        subst hex
        simp only [insertKey, keyLtB_irrefl, Bool.false_eq_true, if_false,
          List.mem_cons]
        tauto

/-- Inserting an element already present in a sorted list is a no-op. -/
theorem insertKey_of_mem {e : U64x4} :
    ∀ {s : List U64x4},
      List.Pairwise (fun x y => keyLtB x y = true) s → e ∈ s →
      insertKey e s = s := by
  intro s
  induction s with
  | nil => intro _ h; exact absurd h (List.not_mem_nil e)
  | cons x xs ih =>
    intro hs hmem
    rcases List.mem_cons.mp hmem with rfl | hmem2
    · simp [insertKey, keyLtB_irrefl]
    · have hxe : keyLtB x e = true :=
        (List.pairwise_cons.mp hs).1 e hmem2
      have h1f : keyLtB e x = false := by
        cases h : keyLtB e x
        · rfl
        · have := keyLtB_trans h hxe
          rw [keyLtB_irrefl] at this
          exact Bool.noConfusion this
      simp only [insertKey, h1f, Bool.false_eq_true, if_false, hxe, if_true]
      rw [ih (List.pairwise_cons.mp hs).2 hmem2]

/-- Inserting a fresh element grows the list by one. -/
theorem insertKey_length_of_not_mem {e : U64x4} :
    ∀ {s : List U64x4}, e ∉ s →
      (insertKey e s).length = s.length + 1 := by
  intro s
  induction s with
  | nil => intro _; rfl
  | cons x xs ih =>
    intro hmem
    by_cases h1 : keyLtB e x = true
    · simp [insertKey, h1]
    · have h1f : keyLtB e x = false := by
        revert h1; cases keyLtB e x <;> simp
      by_cases h2 : keyLtB x e = true
      · have hexs : e ∉ xs := fun h => hmem (List.mem_cons_of_mem _ h)
        simp only [insertKey, h1f, Bool.false_eq_true, if_false, h2, if_true,
          List.length_cons, ih hexs]
      · exfalso
        have h2f : keyLtB x e = false := by
          revert h2; cases keyLtB x e <;> simp
        exact hmem ((keyLtB_conn h1f h2f).symm ▸ List.mem_cons_self x xs)

/-- Ordered insertion preserves sortedness. -/
theorem insertKey_sorted {e : U64x4} :
    ∀ {s : List U64x4},
      List.Pairwise (fun x y => keyLtB x y = true) s →
      List.Pairwise (fun x y => keyLtB x y = true) (insertKey e s) := by
  intro s
  induction s with
  | nil => intro _; simp [insertKey]
  | cons x xs ih =>
    intro hs
    obtain ⟨hx, hxs⟩ := List.pairwise_cons.mp hs
    by_cases h1 : keyLtB e x = true
    · simp only [insertKey, h1, if_true]
      refine List.pairwise_cons.mpr ⟨?_, hs⟩
      intro y hy
      rcases List.mem_cons.mp hy with rfl | hy2
      · exact h1
      · exact keyLtB_trans h1 (hx y hy2)
    · by_cases h2 : keyLtB x e = true
      · have h1f : keyLtB e x = false := by
          revert h1; cases keyLtB e x <;> simp
        simp only [insertKey, h1f, Bool.false_eq_true, if_false, h2, if_true]
        refine List.pairwise_cons.mpr ⟨?_, ih hxs⟩
        intro y hy
        rcases mem_insertKey.mp hy with rfl | hy2
        · exact h2
        · exact hx y hy2
      · have h1f : keyLtB e x = false := by
          revert h1; cases keyLtB e x <;> simp
        have h2f : keyLtB x e = false := by
          revert h2; cases keyLtB x e <;> simp
        simp only [insertKey, h1f, h2f, Bool.false_eq_true, if_false]
        exact hs

/-- Folded insertion preserves sortedness. -/
theorem foldl_insertKey_sorted :
    ∀ (l : List U64x4) (s : List U64x4),
      List.Pairwise (fun x y => keyLtB x y = true) s →
      List.Pairwise (fun x y => keyLtB x y = true)
        (l.foldl (fun t e => insertKey e t) s) := by
  intro l
  induction l with
  | nil => exact fun s hs => hs
  | cons e es ih =>
    intro s hs
    exact ih (insertKey e s) (insertKey_sorted hs)

/-- The sorted deduplication of a list is sorted. -/
theorem sort_dedup_sorted (l : List U64x4) :
    List.Pairwise (fun x y => keyLtB x y = true) (sort_dedup l) :=
  foldl_insertKey_sorted l [] (List.Pairwise.nil)

/-- Membership through folded insertion. -/
theorem mem_foldl_insertKey :
    ∀ (l : List U64x4) (s : List U64x4) (a : U64x4),
      a ∈ l.foldl (fun t e => insertKey e t) s ↔ a ∈ s ∨ a ∈ l := by
  intro l
  induction l with
  | nil => simp
  | cons e es ih =>
    intro s a
    simp only [List.foldl_cons, ih, mem_insertKey, List.mem_cons]
    tauto

/-- Membership in the sorted deduplication. -/
theorem mem_sort_dedup {a : U64x4} {l : List U64x4} :
    a ∈ sort_dedup l ↔ a ∈ l := by
  unfold sort_dedup
  rw [mem_foldl_insertKey]
  simp

/-- Appending one element folds as one more insertion. -/
theorem sort_dedup_append_singleton (l : List U64x4) (e : U64x4) :
    sort_dedup (l ++ [e]) = insertKey e (sort_dedup l) := by
  simp [sort_dedup, List.foldl_append]

/-- On a duplicate-free list, sorted deduplication preserves length. -/
theorem sort_dedup_length :
    ∀ (l : List U64x4), l.Nodup → (sort_dedup l).length = l.length := by
  have aux : ∀ (l : List U64x4) (s : List U64x4),
      List.Pairwise (fun x y => keyLtB x y = true) s →
      (∀ x ∈ l, x ∉ s) → l.Nodup →
      (l.foldl (fun t e => insertKey e t) s).length = s.length + l.length := by
    intro l
    induction l with
    | nil => intro s _ _ _; simp
    | cons e es ih =>
      intro s hs hdisj hnd
      simp only [List.foldl_cons]
      have he : e ∉ s := hdisj e (List.mem_cons_self e es)
      have hlen := insertKey_length_of_not_mem he
      have hes : ∀ x ∈ es, x ∉ insertKey e s := by
        intro x hx hmem
        rcases mem_insertKey.mp hmem with rfl | hmem2
        · exact (List.nodup_cons.mp hnd).1 hx
        · exact hdisj x (List.mem_cons_of_mem _ hx) hmem2
      rw [ih (insertKey e s) (insertKey_sorted hs) hes
        (List.nodup_cons.mp hnd).2, hlen]
      simp only [List.length_cons]
      omega
  intro l hnd
  have := aux l [] List.Pairwise.nil (by simp) hnd
  simpa [sort_dedup] using this

/-- The consumer scan equals inserting the first to_consume distinct
    controls in event order. -/
theorem build_used_eq :
    ∀ (es : List U64x4) (n : Nat) (seen : List U64x4), seen.Nodup →
      (seen.length < n ∨ seen = []) →
      build_used n es (sort_dedup seen) =
        sort_dedup (first_distinct n es seen) := by
  intro es
  induction es with
  | nil => intro n seen _ _; rfl
  | cons e es ih =>
    intro n seen hnd hinv
    simp only [build_used, first_distinct]
    by_cases hmem : e ∈ seen
    · rw [if_pos hmem]
      have hins : insertKey e (sort_dedup seen) = sort_dedup seen :=
        insertKey_of_mem (sort_dedup_sorted seen) (mem_sort_dedup.mpr hmem)
      rw [hins]
      have hguard : ¬ n ≤ (sort_dedup seen).length := by
        rcases hinv with h | rfl
        · rw [sort_dedup_length seen hnd]; omega
        · exact absurd hmem (List.not_mem_nil e)
      rw [if_neg hguard]
      exact ih n seen hnd hinv
    · rw [if_neg hmem]
      have hlen1 : (insertKey e (sort_dedup seen)).length = seen.length + 1 := by
        rw [insertKey_length_of_not_mem (fun h => hmem (mem_sort_dedup.mp h)),
          sort_dedup_length seen hnd]
      have happ : insertKey e (sort_dedup seen) = sort_dedup (seen ++ [e]) :=
        (sort_dedup_append_singleton seen e).symm
      by_cases hbreak : n ≤ seen.length + 1
      · rw [if_pos (by omega : n ≤ (insertKey e (sort_dedup seen)).length),
          if_pos hbreak]
        exact happ
      · rw [if_neg (by omega : ¬ n ≤ (insertKey e (sort_dedup seen)).length),
          if_neg hbreak, happ]
        refine ih n (seen ++ [e]) ?_ (Or.inl ?_)
        · refine List.Nodup.append hnd (List.nodup_singleton e) ?_
          intro x hx hx2
          rw [List.mem_singleton.mp hx2] at hx
          exact hmem hx
        · simp only [List.length_append, List.length_singleton]
          omega

/-- C5, counterexample: with to_consume one and two events whose controls
    arrive in descending key order, the code stops after the first distinct
    control and attaches the larger key, whereas the claim (sort all
    distinct controls, then cap) would attach the smaller one. -/
theorem c5_counterexample :
    used_control 1 [((0, 0, 0, 2) : U64x4), (0, 0, 0, 1)] = [(0, 0, 0, 2)] ∧
    spec_used_control 1 [((0, 0, 0, 2) : U64x4), (0, 0, 0, 1)] =
      [(0, 0, 0, 1)] ∧
    (((0, 0, 0, 2) : U64x4)) ≠ (0, 0, 0, 1) := by
  refine ⟨rfl, rfl, by decide⟩

/-- C5 (amended): the control list attached to consume_events is the
    sorted, deduplicated list of the FIRST to_consume distinct controls in
    event order — the cap is applied while scanning the events, before
    sorting over all distinct controls — and consume_events is issued once
    with limit equal to to_consume reduced to a u16. -/
theorem c5_consumer_control_list (to_consume : Nat) (events : List U64x4) :
    used_control to_consume events =
      sort_dedup (first_distinct to_consume events []) ∧
    List.Pairwise (fun a b => keyLtB a b = true)
      (used_control to_consume events) ∧
    (to_consume < 65536 → consume_limit to_consume = to_consume) := by
  have h1 : used_control to_consume events =
      sort_dedup (first_distinct to_consume events []) :=
    build_used_eq events to_consume [] List.nodup_nil (Or.inr rfl)
  exact ⟨h1, h1 ▸ sort_dedup_sorted _,
    fun h => Nat.mod_eq_of_lt h⟩

/-- Witness for the amended C5 theorem at the default consumer parameter. -/
theorem c5_consumer_control_list_witness :
    (12 : Nat) < 65536 ∧ consume_limit 12 = 12 ∧
      used_control 12 [((0, 0, 0, 1) : U64x4)] =
        sort_dedup (first_distinct 12 [((0, 0, 0, 1) : U64x4)] []) :=
  ⟨by decide, (c5_consumer_control_list 12 [((0, 0, 0, 1) : U64x4)]).2.2
      (by decide),
    (c5_consumer_control_list 12 [((0, 0, 0, 1) : U64x4)]).1⟩
